import Mathlib

/-!
Shallow embedding of the blob client API of `safe_network`
(`src/client/client_api/blob_apis.rs`), together with theorems checking the
natural-language specification against it.

Modelling conventions:
* Bytes are `List Nat`, content hashes (`XorName`) are `Nat`.
* The external collaborators (network session, bincode serialization,
  self-encryption codec, owner encryption capability) are bundled in an
  `Env` record of pure functions; each async fan-out/fan-in barrier
  (`join_all` over spawned tasks) becomes a deterministic `List.map` /
  `List.filterMap` over that record, which preserves the input order the
  way `futures::future::join_all` does.
* The unbounded `loop` of `unpack_head_chunk` is indexed by fuel; the
  result `none` means the loop is still running after consuming the whole
  fuel budget (no result of any kind was produced).
* Rust's panicking unchecked indexing `all_keys[i]` in `seek` is modelled
  by `Option`: `none` is a panic, not an error value.
-/

namespace SafeNetwork

/-- Byte strings (`bytes::Bytes`). -/
abbrev Bytes := List Nat

/-- Content hash (`xor_name::XorName`). -/
abbrev XorName := Nat

/-- Namespace scope of a blob (`url::Scope`). -/
inductive Scope where
  | Public : Scope
  | Private : Scope
deriving DecidableEq, Repr

/-- Address of a Blob (enum `BlobAddress` in blob_apis.rs). -/
inductive BlobAddress where
  | Private (name : XorName) : BlobAddress
  | Public (name : XorName) : BlobAddress
deriving DecidableEq, Repr

/-- The xorname (method `BlobAddress::name`). -/
def BlobAddress.name : BlobAddress → XorName
  | .Public n => n
  | .Private n => n

/-- Returns true if public (method `BlobAddress::is_public`). -/
def BlobAddress.is_public : BlobAddress → Bool
  | .Public _ => true
  | .Private _ => false

/-- Returns true if private (method `BlobAddress::is_private`). -/
def BlobAddress.is_private (a : BlobAddress) : Bool :=
  !a.is_public

/-- The namespace scope of the Blob (method `BlobAddress::scope`). -/
def BlobAddress.scope (a : BlobAddress) : Scope :=
  if a.is_public then Scope.Public else Scope.Private

/-- A stored chunk (`types::Chunk`); this layer only ever looks at its
value (`chunk.value()`). -/
structure Chunk where
  value : Bytes
deriving DecidableEq, Repr

/-- Key of one chunk of a self-encrypted blob
(`self_encryption::ChunkKey`): its ordinal position in the original chunk
sequence and the content address to fetch. -/
structure ChunkKey where
  index : Nat
  dst_hash : XorName
deriving DecidableEq, Repr

/-- An encrypted chunk assembled client-side from a fetched `Chunk` plus
its `ChunkKey`'s index (`self_encryption::EncryptedChunk`). -/
structure EncryptedChunk where
  index : Nat
  content : Bytes
deriving DecidableEq, Repr

/-- Self-encryption decode key (`self_encryption::SecretKey`, imported as
`BlobSecretKey`): the ordered chunk key sequence plus the original file
size. -/
structure BlobSecretKey where
  keys : List ChunkKey
  file_size : Nat
deriving DecidableEq, Repr

/-- Modelled from the spec: the tagged union
`{ FirstLevel(DecodeKey) | AdditionalLevel(DecodeKey) }` of
`client_api::data::SecretKey`. The `data` module itself is not among the
provided sources; the two constructors are exactly the ones matched on in
`unpack_head_chunk` and described in spec section 3. -/
inductive SecretKey where
  | FirstLevel (k : BlobSecretKey) : SecretKey
  | AdditionalLevel (k : BlobSecretKey) : SecretKey
deriving DecidableEq, Repr

/-- Transient carrier threading scope information into the resolver
(struct `HeadChunk` in blob_apis.rs). -/
structure HeadChunk where
  chunk : Chunk
  address : BlobAddress
deriving DecidableEq, Repr

/-- Client-side error type: the variants of `client::Error` that the blob
API can produce. External error payloads (query errors, bincode errors,
self-encryption errors) are abstracted as `Nat` codes. -/
inductive Error where
  | NotEnoughChunks (expected : Nat) (actual : Nat) : Error
  | ReceivedUnexpectedEvent : Error
  | SelfEncryption (code : Nat) : Error
  | Serialisation (code : Nat) : Error
  | Generic (msg : String) : Error
  | FromQuery (code : Nat) (operation_id : Nat) : Error
deriving DecidableEq, Repr

/-- Network query (`messaging::data::DataQuery`); only `GetChunk` is used
by this layer. -/
inductive DataQuery where
  | GetChunk (address : XorName) : DataQuery
deriving DecidableEq, Repr

/-- Network command (`messaging::data::DataCmd`); only `StoreChunk` is
used by this layer. -/
inductive DataCmd where
  | StoreChunk (chunk : Chunk) : DataCmd
deriving DecidableEq, Repr

/-- Network query response (`messaging::data::QueryResponse`).
`OtherResponseKind` stands for every variant other than `GetChunk`; the
code treats all of them uniformly (the `_` match arm). -/
inductive QueryResponse where
  | GetChunk (result : Except Nat Chunk) : QueryResponse
  | OtherResponseKind : QueryResponse
deriving Repr

/-- The value produced by `send_query`: an operation id plus the
response. -/
structure QueryResult where
  operation_id : Nat
  response : QueryResponse
deriving Repr

/-- The inclusive chunk-index range of `self_encryption::SeekInfo`
(`info.index_range`); `stop` models the field called `end` in the source. -/
structure IndexRange where
  start : Nat
  stop : Nat
deriving DecidableEq, Repr

/-- Result of `self_encryption::seek_info`: the chunk-index range and the
intra-chunk relative offset covering the requested byte window. -/
structure SeekInfo where
  index_range : IndexRange
  relative_pos : Nat
deriving DecidableEq, Repr

/-- Owner encryption capability (the object returned by
`utils::encryption` for Private scope); this layer only calls its
`decrypt`. -/
structure EncryptionCap where
  decrypt : Bytes → Except Error Bytes

/-- The environment: the client's key, the network session, and the
external collaborators (bincode, self-encryption, owner encryption), all
as pure functions. A fixed `Env` models one deterministic execution. -/
structure Env where
  publicKey : Nat
  encryption : Scope → Nat → Option EncryptionCap
  get_data_chunks : Bytes → Option EncryptionCap → Except Error (BlobAddress × List Chunk)
  send_query : DataQuery → Except Error QueryResult
  send_cmd : DataCmd → Except Error Unit
  deserialize_sk : Bytes → Except Error SecretKey
  deserialize_chunk : Bytes → Except Error Chunk
  decrypt_full_set : BlobSecretKey → List EncryptedChunk → Except Nat Bytes
  decrypt_range : BlobSecretKey → List EncryptedChunk → Nat → Nat → Except Nat Bytes
  seek_info : Nat → Nat → Nat → SeekInfo

/-- `Client::read_from_network`: query `GetChunk(name)`; a `GetChunk`
success yields the chunk, a `GetChunk` failure is mapped through
`Error::from((err, operation_id))`, any other response kind is
`Error::ReceivedUnexpectedEvent`. -/
def read_from_network (env : Env) (name : XorName) : Except Error Chunk :=
  match env.send_query (DataQuery.GetChunk name) with
  | .error e => .error e
  | .ok res =>
    match res.response with
    | .GetChunk result =>
      match result with
      | .ok chunk => .ok chunk
      | .error err => .error (Error.FromQuery err res.operation_id)
    | .OtherResponseKind => .error Error.ReceivedUnexpectedEvent

/-- One spawned fetch task of `try_get_chunks`: fetch the chunk at
`key.dst_hash`; on success pair its content with the key's index, on any
error log and yield `None`. -/
def fetch_one (env : Env) (key : ChunkKey) : Option EncryptedChunk :=
  match read_from_network env key.dst_hash with
  | .ok chunk => some { index := key.index, content := chunk.value }
  | .error _ => none

/-- `Client::try_get_chunks`: fan out one fetch per key, wait for all of
them (`join_all` keeps input order), drop the failures, and compare the
success count with the requested count. -/
def try_get_chunks (env : Env) (keys : List ChunkKey) : Except Error (List EncryptedChunk) :=
  let expected_count := keys.length
  let encrypted_chunks := keys.filterMap (fetch_one env)
  if expected_count > encrypted_chunks.length then
    .error (Error.NotEnoughChunks expected_count encrypted_chunks.length)
  else
    .ok encrypted_chunks

/-- `Client::read_all`: fetch the whole chunk set of a secret key, then
run the self-encryption full decode. -/
def read_all (env : Env) (secret_key : BlobSecretKey) : Except Error Bytes :=
  match try_get_chunks env secret_key.keys with
  | .error e => .error e
  | .ok encrypted_chunks =>
    match env.decrypt_full_set secret_key encrypted_chunks with
    | .ok bytes => .ok bytes
    | .error e => .error (Error.SelfEncryption e)

/-- The `loop` body of `Client::unpack_head_chunk`, indexed by fuel. The
`address` is destructured once before the loop and never changes, so the
public/private test is re-evaluated against the same address on every
iteration. `none` means the loop was still running when the fuel ran
out. -/
def unpack_loop (env : Env) (address : BlobAddress) : Nat → Chunk → Option (Except Error BlobSecretKey)
  | 0, _ => none
  | fuel + 1, chunk =>
    let bytesR : Except Error Bytes :=
      if address.is_public then
        .ok chunk.value
      else
        match env.encryption Scope.Private env.publicKey with
        | none => .error (Error.Generic "Could not get an encryption object.")
        | some owner => owner.decrypt chunk.value
    match bytesR with
    | .error e => some (.error e)
    | .ok bytes =>
      match env.deserialize_sk bytes with
      | .error e => some (.error e)
      | .ok (SecretKey.FirstLevel secret_key) => some (.ok secret_key)
      | .ok (SecretKey.AdditionalLevel secret_key) =>
        match read_all env secret_key with
        | .error e => some (.error e)
        | .ok serialized_chunk =>
          match env.deserialize_chunk serialized_chunk with
          | .error e => some (.error e)
          | .ok chunk2 => unpack_loop env address fuel chunk2

/-- `Client::unpack_head_chunk`: extract a blob secret key from a head
chunk, repeating through `AdditionalLevel` indirection until a
`FirstLevel` key is obtained. -/
def unpack_head_chunk (env : Env) (fuel : Nat) (hc : HeadChunk) : Option (Except Error BlobSecretKey) :=
  unpack_loop env hc.address fuel hc.chunk

/-- `Client::read_blob`: fetch the head chunk, resolve the first-level
secret key, read and decode the whole chunk set. -/
def read_blob (env : Env) (fuel : Nat) (address : BlobAddress) : Option (Except Error Bytes) :=
  match read_from_network env address.name with
  | .error e => some (.error e)
  | .ok chunk =>
    match unpack_head_chunk env fuel { chunk := chunk, address := address } with
    | none => none
    | some (.error e) => some (.error e)
    | some (.ok secret_key) => some (read_all env secret_key)

/-- The key-collection loop of `Client::seek`:
`(range.start..range.end + 1).map(|i| all_keys[i])` with Rust's panicking
unchecked indexing; `none` models the out-of-bounds panic. -/
def seek_keys (all_keys : List ChunkKey) : List Nat → Option (List ChunkKey)
  | [] => some []
  | i :: rest =>
    match all_keys[i]? with
    | none => none
    | some k =>
      match seek_keys all_keys rest with
      | none => none
      | some ks => some (k :: ks)

/-- `Client::seek`: compute the seek info for `(file_size, pos, len)`,
collect the chunk keys of the inclusive index range by unchecked
indexing, fetch that sub-range, and decode the requested window. The
outer `none` is the indexing panic. -/
def seek (env : Env) (secret_key : BlobSecretKey) (pos : Nat) (len : Nat) : Option (Except Error Bytes) :=
  let info := env.seek_info secret_key.file_size pos len
  let range := info.index_range
  let all_keys := secret_key.keys
  match seek_keys all_keys (List.range' range.start (range.stop + 1 - range.start)) with
  | none => none
  | some ks =>
    some (match try_get_chunks env ks with
      | .error e => .error e
      | .ok encrypted_chunks =>
        match env.decrypt_range secret_key encrypted_chunks info.relative_pos len with
        | .ok bytes => .ok bytes
        | .error e => .error (Error.SelfEncryption e))

/-- `Client::read_blob_from`: fetch the head chunk, resolve the
first-level secret key, then `seek` into the data. -/
def read_blob_from (env : Env) (fuel : Nat) (address : BlobAddress) (pos : Nat) (len : Nat) : Option (Except Error Bytes) :=
  match read_from_network env address.name with
  | .error e => some (.error e)
  | .ok chunk =>
    match unpack_head_chunk env fuel { chunk := chunk, address := address } with
    | none => none
    | some (.error e) => some (.error e)
    | some (.ok secret_key) => seek env secret_key pos len

/-- `Client::write_to_network`: self-encrypt the data, fan out one store
command per chunk, wait for all of them while discarding their results,
and return the head address. -/
def write_to_network (env : Env) (data : Bytes) (scope : Scope) : Except Error BlobAddress :=
  let owner := env.encryption scope env.publicKey
  match env.get_data_chunks data owner with
  | .error e => .error e
  | .ok (head_address, all_chunks) =>
    let _ := all_chunks.map (fun chunk => env.send_cmd (DataCmd.StoreChunk chunk))
    .ok head_address

/-! ### Helper lemmas -/

/-- A fetched `EncryptedChunk` carries the index of the `ChunkKey` it was
fetched for. -/
theorem fetch_one_index (env : Env) (key : ChunkKey) (c : EncryptedChunk)
    (h : fetch_one env key = some c) : c.index = key.index := by
  unfold fetch_one at h
  cases hr : read_from_network env key.dst_hash with
  | error e => rw [hr] at h; exact absurd h (by simp)
  | ok chunk => rw [hr] at h; injection h with h2; subst h2; rfl

/-- When a `filterMap` loses no element, every element was mapped to
`some`, pointwise in order. -/
theorem filterMap_full {α β : Type} (f : α → Option β) (l : List α)
    (h : (l.filterMap f).length = l.length) :
    List.Forall₂ (fun a b => f a = some b) l (l.filterMap f) := by
  induction l with
  | nil => simp
  | cons a t ih =>
    cases hfa : f a with
    | none =>
      have hle := List.length_filterMap_le f t
      simp [List.filterMap_cons, hfa] at h
      omega
    | some b =>
      have hc : (a :: t).filterMap f = b :: t.filterMap f := by
        simp [List.filterMap_cons, hfa]
      rw [hc] at h ⊢
      simp only [List.length_cons] at h
      exact List.Forall₂.cons hfa (ih (by omega))

/-- Unfolding equation of `try_get_chunks` with the two local lets
inlined. -/
theorem try_get_chunks_eq (env : Env) (keys : List ChunkKey) :
    try_get_chunks env keys =
      if (keys.filterMap (fetch_one env)).length < keys.length then
        .error (Error.NotEnoughChunks keys.length (keys.filterMap (fetch_one env)).length)
      else
        .ok (keys.filterMap (fetch_one env)) := rfl

/-- On success, `try_get_chunks` returns exactly the list of fetched
chunks, one per requested key. -/
theorem try_get_chunks_ok (env : Env) (keys : List ChunkKey)
    (cs : List EncryptedChunk) (h : try_get_chunks env keys = .ok cs) :
    cs = keys.filterMap (fetch_one env) ∧ cs.length = keys.length := by
  rw [try_get_chunks_eq] at h
  split at h
  · exact absurd h (by simp)
  · rename_i hle
    have h2 := List.length_filterMap_le (fetch_one env) keys
    injection h with h
    subst h
    exact ⟨rfl, by omega⟩

/-! ### Synthetic environments used as concrete witnesses -/

/-- A query endpoint serving chunks out of a fixed partial store. -/
def storeOf (m : XorName → Option Chunk) : DataQuery → Except Error QueryResult :=
  fun q =>
    match q with
    | .GetChunk n =>
      .ok { operation_id := 0
            response := .GetChunk (match m n with | some c => .ok c | none => .error 0) }

/-- A default environment in which every collaborator is inert; concrete
witnesses override the fields they exercise. -/
def baseEnv : Env where
  publicKey := 0
  encryption := fun _ _ => none
  get_data_chunks := fun _ _ => .error (Error.Generic "unused")
  send_query := storeOf (fun _ => none)
  send_cmd := fun _ => .ok ()
  deserialize_sk := fun _ => .error (Error.Serialisation 0)
  deserialize_chunk := fun _ => .error (Error.Serialisation 0)
  decrypt_full_set := fun _ _ => .error 0
  decrypt_range := fun _ _ _ _ => .error 0
  seek_info := fun _ _ _ => { index_range := { start := 0, stop := 0 }, relative_pos := 0 }

/-- An environment storing chunk `[5]` at name 1 and chunk `[6]` at
name 2, and nothing else. -/
def envW1 : Env :=
  { baseEnv with
      send_query := storeOf (fun n => if n = 1 then some { value := [5] }
        else if n = 2 then some { value := [6] } else none) }

/-! ### Claims about the parallel chunk fetcher -/

/-- C1: after all dispatched fetches settle, `try_get_chunks` fails with
`NotEnoughChunks (expected, actual)` and returns no chunk data whenever
fewer chunks than requested were fetched, and otherwise returns the full
fetched collection; a successful result always holds exactly as many
chunks as keys were requested, so no partial result is ever returned. -/
theorem c1_no_partial_read (env : Env) (keys : List ChunkKey) :
    ((keys.filterMap (fetch_one env)).length < keys.length →
      try_get_chunks env keys =
        .error (Error.NotEnoughChunks keys.length (keys.filterMap (fetch_one env)).length))
    ∧ (keys.length ≤ (keys.filterMap (fetch_one env)).length →
      try_get_chunks env keys = .ok (keys.filterMap (fetch_one env)))
    ∧ (∀ cs, try_get_chunks env keys = .ok cs → cs.length = keys.length) := by
  refine ⟨fun h => ?_, fun h => ?_, fun cs h => (try_get_chunks_ok env keys cs h).2⟩
  · rw [try_get_chunks_eq]
    split
    · rfl
    · omega
  · rw [try_get_chunks_eq]
    split
    · omega
    · rfl

/-- Witness for C1: in `envW1`, requesting keys `(0 ↦ 1)` and `(1 ↦ 3)`
fetches only one chunk and fails with `NotEnoughChunks 2 1`, while
requesting `(0 ↦ 1)` and `(1 ↦ 2)` succeeds with both chunks. -/
theorem c1_no_partial_read_witness :
    try_get_chunks envW1 [{ index := 0, dst_hash := 1 }, { index := 1, dst_hash := 3 }] =
      .error (Error.NotEnoughChunks 2 1)
    ∧ try_get_chunks envW1 [{ index := 0, dst_hash := 1 }, { index := 1, dst_hash := 2 }] =
      .ok [{ index := 0, content := [5] }, { index := 1, content := [6] }] :=
  ⟨(c1_no_partial_read envW1 _).1 (by decide),
   (c1_no_partial_read envW1 _).2.1 (by decide)⟩

/-- C9: a successful `try_get_chunks` returns chunks whose index list
equals the requested keys' index list (hence the multisets agree), and
the chunk at each position is exactly the one fetched for the key at
that position, independent of completion order. -/
theorem c9_index_authoritative (env : Env) (keys : List ChunkKey)
    (cs : List EncryptedChunk) (h : try_get_chunks env keys = .ok cs) :
    cs.map EncryptedChunk.index = keys.map ChunkKey.index
    ∧ ∀ i (hk : i < keys.length) (hc : i < cs.length),
        fetch_one env (keys.get ⟨i, hk⟩) = some (cs.get ⟨i, hc⟩) := by
  obtain ⟨hcs, hlen⟩ := try_get_chunks_ok env keys cs h
  subst hcs
  have hall := filterMap_full (fetch_one env) keys hlen
  have hget := (List.forall₂_iff_get.mp hall).2
  refine ⟨?_, fun i hk hc => hget i hk hc⟩
  apply List.ext_getElem
  · simpa using hlen
  · intro i h1 h2
    simp only [List.getElem_map]
    have h3 := fetch_one_index env _ _ (hget i (by simpa using h2) (by simpa using h1))
    simpa [List.get_eq_getElem] using h3

/-- Witness for C9: the successful fetch of `envW1` returns indices
`[0, 1]` for requested indices `[0, 1]`. -/
theorem c9_index_authoritative_witness :
    ([{ index := 0, content := [5] }, { index := 1, content := [6] }] : List EncryptedChunk).map
        EncryptedChunk.index =
      ([{ index := 0, dst_hash := 1 }, { index := 1, dst_hash := 2 }] : List ChunkKey).map
        ChunkKey.index :=
  (c9_index_authoritative envW1 [{ index := 0, dst_hash := 1 }, { index := 1, dst_hash := 2 }]
    [{ index := 0, content := [5] }, { index := 1, content := [6] }] (by rfl)).1

/-! ### Claims about the write path -/

/-- Unfolding equation of `write_to_network`; the mapped store commands
are dispatched and their results discarded, so the outcome depends only
on the encoding step. -/
theorem write_to_network_eq (env : Env) (data : Bytes) (scope : Scope) :
    write_to_network env data scope =
      match env.get_data_chunks data (env.encryption scope env.publicKey) with
      | .error e => .error e
      | .ok (head_address, _) => .ok head_address := rfl

/-- An environment whose encoder accepts exactly `[1, 2, 3]` and whose
every store command fails. -/
def envW4 : Env :=
  { baseEnv with
      get_data_chunks := fun d _ =>
        if d = [1, 2, 3] then .ok (BlobAddress.Public 7, [{ value := [9] }])
        else .error (Error.Generic "too small")
      send_cmd := fun _ => .error (Error.Generic "store failed") }

/-- C4: once the encoding step succeeds, `write_to_network` waits for
every dispatched store task, discards each individual store result, and
returns `Ok` with the head address; its outcome is invariant under any
replacement of the store endpoint, so no store failure ever surfaces. -/
theorem c4_write_ignores_store_errors (env : Env) (data : Bytes) (scope : Scope)
    (cmd2 : DataCmd → Except Error Unit) :
    (∀ addr chunks,
      env.get_data_chunks data (env.encryption scope env.publicKey) = .ok (addr, chunks) →
      write_to_network env data scope = .ok addr)
    ∧ write_to_network { env with send_cmd := cmd2 } data scope =
        write_to_network env data scope := by
  constructor
  · intro addr chunks h
    rw [write_to_network_eq, h]
  · rfl

/-- Witness for C4: in `envW4` every store command errors, yet the write
of `[1, 2, 3]` returns the head address. -/
theorem c4_write_ignores_store_errors_witness :
    write_to_network envW4 [1, 2, 3] Scope.Public = .ok (BlobAddress.Public 7) :=
  (c4_write_ignores_store_errors envW4 [1, 2, 3] Scope.Public (fun _ => .ok ())).1
    (BlobAddress.Public 7) [{ value := [9] }] rfl

/-- The same client as `envW4` after the first write: the network now
holds the chunk and store commands succeed. Only the session endpoints
differ from `envW4`. -/
def envW5 : Env :=
  { envW4 with
      send_cmd := fun _ => .ok ()
      send_query := storeOf (fun n => if n = 9 then some { value := [9] } else none) }

/-- C5: two `write_to_network` calls with identical `(bytes, scope)`
under the same owning key — that is, against any two environments that
agree on the key, the owner capability and the deterministic encoder,
whatever happened to the network in between — return the same
`BlobAddress`, and both return `Ok` (there is no conflict error path). -/
theorem c5_idempotent_write (env env' : Env) (data : Bytes) (scope : Scope)
    (addr : BlobAddress) (chunks : List Chunk)
    (hpk : env'.publicKey = env.publicKey)
    (henc : env'.encryption = env.encryption)
    (hgdc : env'.get_data_chunks = env.get_data_chunks)
    (h : env.get_data_chunks data (env.encryption scope env.publicKey) = .ok (addr, chunks)) :
    write_to_network env data scope = .ok addr
    ∧ write_to_network env' data scope = .ok addr := by
  constructor
  · rw [write_to_network_eq, h]
  · rw [write_to_network_eq, hpk, henc, hgdc, h]

/-- Witness for C5: writing `[1, 2, 3]` against `envW4` (first call) and
against `envW5` (second call, after the network stored the chunk) yields
`Ok` with the same address both times. -/
theorem c5_idempotent_write_witness :
    write_to_network envW4 [1, 2, 3] Scope.Private = .ok (BlobAddress.Public 7)
    ∧ write_to_network envW5 [1, 2, 3] Scope.Private = .ok (BlobAddress.Public 7) :=
  c5_idempotent_write envW4 envW5 [1, 2, 3] Scope.Private (BlobAddress.Public 7)
    [{ value := [9] }] rfl rfl rfl rfl

/-! ### Claim about response-kind handling -/

/-- C8: `read_from_network` returns a chunk exactly when the query
response is a `GetChunk` success; a response of any other kind yields
`ReceivedUnexpectedEvent`, which propagates and makes the whole
`read_blob` fail with that error. -/
theorem c8_unexpected_response_kind (env : Env) (name : XorName) :
    (∀ c, read_from_network env name = .ok c ↔
      ∃ opid, env.send_query (DataQuery.GetChunk name) =
        .ok { operation_id := opid, response := .GetChunk (.ok c) })
    ∧ (∀ opid, env.send_query (DataQuery.GetChunk name) =
          .ok { operation_id := opid, response := .OtherResponseKind } →
        read_from_network env name = .error Error.ReceivedUnexpectedEvent)
    ∧ (∀ opid fuel (address : BlobAddress), address.name = name →
        env.send_query (DataQuery.GetChunk name) =
          .ok { operation_id := opid, response := .OtherResponseKind } →
        read_blob env fuel address = some (.error Error.ReceivedUnexpectedEvent)) := by
  refine ⟨fun c => ⟨fun h => ?_, fun h => ?_⟩, fun opid h => ?_, fun opid fuel address hname h => ?_⟩
  · unfold read_from_network at h
    cases hq : env.send_query (DataQuery.GetChunk name) with
    | error e => rw [hq] at h; exact absurd h (by simp)
    | ok res =>
      rw [hq] at h
      obtain ⟨opid, resp⟩ := res
      cases resp with
      | GetChunk r =>
        cases r with
        | ok chunk => injection h with h2; subst h2; exact ⟨opid, rfl⟩
        | error err => exact absurd h (by simp)
      | OtherResponseKind => exact absurd h (by simp)
  · obtain ⟨opid, hq⟩ := h
    unfold read_from_network
    rw [hq]
  · unfold read_from_network
    rw [h]
  · have h2 : read_from_network env name = .error Error.ReceivedUnexpectedEvent := by
      unfold read_from_network
      rw [h]
    unfold read_blob
    rw [hname, h2]

/-- An environment in which every query is answered with a response of a
kind other than `GetChunk`. -/
def envW8 : Env :=
  { baseEnv with
      send_query := fun _ => .ok { operation_id := 3, response := .OtherResponseKind } }

/-- Witness for C8: in `envW8` the single fetch fails with
`ReceivedUnexpectedEvent` and so does the whole `read_blob`, while in
`envW1` a `GetChunk` success response yields the chunk. -/
theorem c8_unexpected_response_kind_witness :
    read_from_network envW8 5 = .error Error.ReceivedUnexpectedEvent
    ∧ read_blob envW8 1 (BlobAddress.Public 5) = some (.error Error.ReceivedUnexpectedEvent)
    ∧ read_from_network envW1 1 = .ok { value := [5] } :=
  ⟨(c8_unexpected_response_kind envW8 5).2.1 3 rfl,
   (c8_unexpected_response_kind envW8 5).2.2 3 1 (BlobAddress.Public 5) rfl rfl,
   ((c8_unexpected_response_kind envW1 1).1 { value := [5] }).mpr ⟨0, rfl⟩⟩

/-! ### Claim about unchecked indexing in seek -/

/-- Unfolding equation of `seek` with the local lets inlined. -/
theorem seek_eq (env : Env) (sk : BlobSecretKey) (pos len : Nat) :
    seek env sk pos len =
      match seek_keys sk.keys
          (List.range' (env.seek_info sk.file_size pos len).index_range.start
            ((env.seek_info sk.file_size pos len).index_range.stop + 1 -
              (env.seek_info sk.file_size pos len).index_range.start)) with
      | none => none
      | some ks =>
        some (match try_get_chunks env ks with
          | .error e => .error e
          | .ok encrypted_chunks =>
            match env.decrypt_range sk encrypted_chunks
                (env.seek_info sk.file_size pos len).relative_pos len with
            | .ok bytes => .ok bytes
            | .error e => .error (Error.SelfEncryption e)) := rfl

/-- Indexing panics as soon as the index list holds one out-of-bounds
position. -/
theorem seek_keys_oob (keys : List ChunkKey) :
    ∀ (idxs : List Nat) (i : Nat), i ∈ idxs → keys.length ≤ i →
      seek_keys keys idxs = none := by
  intro idxs
  induction idxs with
  | nil => intro i h _; cases h
  | cons j rest ih =>
    intro i hmem hi
    rcases List.mem_cons.mp hmem with h | h
    · subst h
      have hn : keys[i]? = none := List.getElem?_eq_none_iff.mpr hi
      simp [seek_keys, hn]
    · have hr := ih i h hi
      unfold seek_keys
      cases hk : keys[j]? <;> simp [hk, hr]

/-- Indexing succeeds when every position is in bounds. -/
theorem seek_keys_ok (keys : List ChunkKey) :
    ∀ (idxs : List Nat), (∀ i ∈ idxs, i < keys.length) →
      ∃ ks, seek_keys keys idxs = some ks := by
  intro idxs
  induction idxs with
  | nil => intro _; exact ⟨[], rfl⟩
  | cons j rest ih =>
    intro hall
    obtain ⟨ks, hks⟩ := ih (fun i hi => hall i (List.mem_cons_of_mem j hi))
    have hj : j < keys.length := hall j (List.mem_cons_self j rest)
    have hk : keys[j]? = some keys[j] := List.getElem?_eq_getElem hj
    exact ⟨keys[j] :: ks, by simp [seek_keys, hk, hks]⟩

/-- C10: `seek` collects `all_keys[i]` by unchecked indexing for every
`i` from `index_range.start` through `index_range.end` inclusive, so
whenever `index_range.end` reaches the number of keys the call panics
(`none` in this model) instead of returning an error value; when
`index_range.end` is in bounds no panic occurs. -/
theorem c10_seek_panics_out_of_bounds (env : Env) (sk : BlobSecretKey)
    (pos len s e rp : Nat)
    (hinfo : env.seek_info sk.file_size pos len =
      { index_range := { start := s, stop := e }, relative_pos := rp }) :
    (s ≤ e → sk.keys.length ≤ e → seek env sk pos len = none)
    ∧ (e < sk.keys.length → ∃ res, seek env sk pos len = some res) := by
  constructor
  · intro hse hlen
    simp only [seek_eq, hinfo]
    have hmem : e ∈ List.range' s (e + 1 - s) := by
      rw [List.mem_range'_1]
      omega
    rw [seek_keys_oob sk.keys _ e hmem hlen]
  · intro hlt
    have hall : ∀ i ∈ List.range' s (e + 1 - s), i < sk.keys.length := by
      intro i hi
      rw [List.mem_range'_1] at hi
      omega
    obtain ⟨ks, hks⟩ := seek_keys_ok sk.keys (List.range' s (e + 1 - s)) hall
    simp only [seek_eq, hinfo, hks]
    exact ⟨_, rfl⟩

/-- An environment whose seek-range computation spans chunk indices 0
through 2 inclusive. -/
def envW10 : Env :=
  { baseEnv with
      seek_info := fun _ _ _ =>
        { index_range := { start := 0, stop := 2 }, relative_pos := 0 } }

/-- A secret key holding a single chunk key. -/
def skW10 : BlobSecretKey := { keys := [{ index := 0, dst_hash := 1 }], file_size := 9 }

/-- Witness for C10: with one available key and a seek range reaching
index 2, the `seek` call panics. -/
theorem c10_seek_panics_out_of_bounds_witness : seek envW10 skW10 0 9 = none :=
  (c10_seek_panics_out_of_bounds envW10 skW10 0 9 0 2 0 rfl).1 (by decide) (by decide)

/-! ### Claim about indirection depth in the resolver -/

/-- A one-chunk secret key used by the cyclic adversarial environment. -/
def cycSK : BlobSecretKey := { keys := [{ index := 0, dst_hash := 5 }], file_size := 1 }

/-- An adversarial environment forming an indirection cycle: every head
payload deserializes to `AdditionalLevel cycSK`, the referenced chunk set
is always available, and decoding plus chunk deserialization reproduce
the very chunk the resolver started from. -/
def cycEnv : Env :=
  { baseEnv with
      send_query := storeOf (fun _ => some { value := [3] })
      deserialize_sk := fun _ => .ok (SecretKey.AdditionalLevel cycSK)
      deserialize_chunk := fun _ => .ok { value := [3] }
      decrypt_full_set := fun _ _ => .ok [3] }

/-- The head chunk opening the cycle of `cycEnv`. -/
def cycHead : HeadChunk := { chunk := { value := [3] }, address := BlobAddress.Public 0 }

/-- The resolver loop never produces any outcome on the given input, no
matter how much fuel it is granted: it runs forever. -/
def UnpackDiverges (env : Env) (hc : HeadChunk) : Prop :=
  ∀ fuel, unpack_head_chunk env fuel hc = none

/-- In `cycEnv` each loop iteration reproduces the starting chunk, so
the loop never terminates on any fuel budget. -/
theorem cyc_loop_none :
    ∀ n, unpack_loop cycEnv (BlobAddress.Public 0) n { value := [3] } = none := by
  intro n
  induction n with
  | zero => rfl
  | succ n ih =>
    have hstep : unpack_loop cycEnv (BlobAddress.Public 0) (n + 1) { value := [3] } =
        unpack_loop cycEnv (BlobAddress.Public 0) n { value := [3] } := rfl
    rw [hstep, ih]

/-- C6 counterexample: `unpack_head_chunk` does not fail closed past any
fixed indirection depth — on the cyclic adversarial input it consumes
every fuel budget without returning any result or error (the error type
has no indirection-too-deep variant at all), so the loop as written never
terminates on this input. -/
theorem c6_counterexample : UnpackDiverges cycEnv cycHead :=
  fun fuel => cyc_loop_none fuel

/-- C6 amended: `unpack_head_chunk` imposes no bound on indirection
depth; there is an adversarial environment and head chunk on which the
resolution loop runs forever — for every fuel budget the fuel-indexed
model is still running — and it never produces an indirection-too-deep
failure. -/
theorem c6_no_indirection_depth_bound :
    ∀ fuel, unpack_head_chunk cycEnv fuel cycHead = none := by
  intro fuel
  induction fuel with
  | zero => rfl
  | succ n ih =>
    have hstep : unpack_head_chunk cycEnv (n + 1) cycHead =
        unpack_head_chunk cycEnv n cycHead := rfl
    rw [hstep, ih]

/-! ### Claim about private-scope decryption across indirection levels -/

/-- Modelled from the spec: the resolver loop as the claim describes it,
in which the owner-capability decryption wraps only the outermost head
chunk and inner indirection-level chunks are used without decryption
(`outermost` flags the first iteration). This definition follows the
claim's words and is compared against `unpack_loop`, which follows the
source. -/
def unpack_loop_claim (env : Env) (address : BlobAddress) :
    Nat → Bool → Chunk → Option (Except Error BlobSecretKey)
  | 0, _, _ => none
  | fuel + 1, outermost, chunk =>
    let bytesR : Except Error Bytes :=
      if address.is_public || !outermost then
        .ok chunk.value
      else
        match env.encryption Scope.Private env.publicKey with
        | none => .error (Error.Generic "Could not get an encryption object.")
        | some owner => owner.decrypt chunk.value
    match bytesR with
    | .error e => some (.error e)
    | .ok bytes =>
      match env.deserialize_sk bytes with
      | .error e => some (.error e)
      | .ok (SecretKey.FirstLevel secret_key) => some (.ok secret_key)
      | .ok (SecretKey.AdditionalLevel secret_key) =>
        match read_all env secret_key with
        | .error e => some (.error e)
        | .ok serialized =>
          match env.deserialize_chunk serialized with
          | .error e => some (.error e)
          | .ok chunk2 => unpack_loop_claim env address fuel false chunk2

/-- Modelled from the spec: `unpack_head_chunk` as the claim describes
it, decrypting only the outermost level of a private blob. -/
def unpack_head_chunk_claim (env : Env) (fuel : Nat) (hc : HeadChunk) :
    Option (Except Error BlobSecretKey) :=
  unpack_loop_claim env hc.address fuel true hc.chunk

/-- The secret key the source resolver reaches in `env7`. -/
def skA : BlobSecretKey := { keys := [], file_size := 1 }

/-- The secret key the claim's resolver variant reaches in `env7`. -/
def skB : BlobSecretKey := { keys := [], file_size := 2 }

/-- The intermediate indirection-level key of `env7`. -/
def skMid : BlobSecretKey := { keys := [], file_size := 3 }

/-- The owner capability of `env7`: decrypts `[10]` to `[20]` and `[30]`
to `[40]`. -/
def capW7 : EncryptionCap :=
  { decrypt := fun b =>
      if b = [10] then .ok [20]
      else if b = [30] then .ok [40]
      else .error (Error.Generic "decrypt") }

/-- A private-scope environment with one indirection level, on which
decrypting or not decrypting the inner chunk leads to different
first-level keys: `[20]` deserializes to `AdditionalLevel skMid`, whose
decoded bytes `[100]` deserialize to the inner chunk `[30]`; decrypted,
`[30]` becomes `[40]` which deserializes to `FirstLevel skA`, while raw
`[30]` deserializes to `FirstLevel skB`. -/
def env7 : Env :=
  { baseEnv with
      encryption := fun s _ => if s = Scope.Private then some capW7 else none
      deserialize_sk := fun b =>
        if b = [20] then .ok (SecretKey.AdditionalLevel skMid)
        else if b = [40] then .ok (SecretKey.FirstLevel skA)
        else if b = [30] then .ok (SecretKey.FirstLevel skB)
        else .error (Error.Serialisation 1)
      deserialize_chunk := fun b =>
        if b = [100] then .ok { value := [30] } else .error (Error.Serialisation 2)
      decrypt_full_set := fun _ _ => .ok [100] }

/-- The private head chunk of `env7`. -/
def hc7 : HeadChunk := { chunk := { value := [10] }, address := BlobAddress.Private 0 }

/-- C7 counterexample: on the private one-indirection input of `env7`
the source resolver decrypts the inner level too and reaches `skA`,
whereas the claim's outermost-only variant reaches `skB`; the two
disagree, so inner indirection-level chunks are not used without
decryption. -/
theorem c7_counterexample :
    unpack_head_chunk env7 2 hc7 = some (.ok skA)
    ∧ unpack_head_chunk_claim env7 2 hc7 = some (.ok skB)
    ∧ skA ≠ skB :=
  ⟨rfl, rfl, by decide⟩

/-- C7 amended: on `AdditionalLevel(key)` the resolver fetches and fully
decodes the chunk set of `key`, deserializes the bytes back into a
chunk, and loops with that chunk under the unchanged address — so for a
Private-scope address the owner-capability decryption applies at every
level, the inner indirection-level chunks included, not only at the
outermost head chunk. -/
theorem c7_additional_level_decrypts_every_level (env : Env) (fuel : Nat) (n : XorName)
    (c c2 : Chunk) (owner : EncryptionCap) (b s : Bytes) (k : BlobSecretKey)
    (henc : env.encryption Scope.Private env.publicKey = some owner)
    (hdec : owner.decrypt c.value = .ok b)
    (hsk : env.deserialize_sk b = .ok (SecretKey.AdditionalLevel k))
    (hread : read_all env k = .ok s)
    (hchunk : env.deserialize_chunk s = .ok c2) :
    unpack_head_chunk env (fuel + 1) { chunk := c, address := BlobAddress.Private n } =
      unpack_head_chunk env fuel { chunk := c2, address := BlobAddress.Private n }
    ∧ ∀ (k2 : BlobSecretKey) (b2 : Bytes),
        owner.decrypt c2.value = .ok b2 →
        env.deserialize_sk b2 = .ok (SecretKey.FirstLevel k2) →
        unpack_head_chunk env (fuel + 1 + 1) { chunk := c, address := BlobAddress.Private n } =
          some (.ok k2) := by
  constructor
  · show unpack_loop env (BlobAddress.Private n) (fuel + 1) c =
      unpack_loop env (BlobAddress.Private n) fuel c2
    simp only [unpack_loop, BlobAddress.is_public, Bool.false_eq_true, if_false,
      henc, hdec, hsk, hread, hchunk]
  · intro k2 b2 hdec2 hsk2
    show unpack_loop env (BlobAddress.Private n) (fuel + 1 + 1) c = some (.ok k2)
    simp only [unpack_loop, BlobAddress.is_public, Bool.false_eq_true, if_false,
      henc, hdec, hsk, hread, hchunk]
    cases fuel with
    | zero =>
      simp only [unpack_loop, BlobAddress.is_public, Bool.false_eq_true, if_false,
        henc, hdec2, hsk2]
    | succ m =>
      simp only [unpack_loop, BlobAddress.is_public, Bool.false_eq_true, if_false,
        henc, hdec2, hsk2]

/-- Witness for the amended C7: in `env7`, one resolver step turns the
private head chunk `[10]` into the inner chunk `[30]`, and with the inner
level decrypted the resolver reaches `skA` after two iterations. -/
theorem c7_additional_level_decrypts_every_level_witness :
    unpack_head_chunk env7 1 { chunk := { value := [10] }, address := BlobAddress.Private 0 } =
      unpack_head_chunk env7 0 { chunk := { value := [30] }, address := BlobAddress.Private 0 }
    ∧ unpack_head_chunk env7 2 { chunk := { value := [10] }, address := BlobAddress.Private 0 } =
      some (.ok skA) := by
  have h := c7_additional_level_decrypts_every_level env7 0 0 { value := [10] }
    { value := [30] } capW7 [20] [100] skMid rfl rfl rfl rfl rfl
  exact ⟨h.1, h.2 skA [40] rfl rfl⟩

/-! ### Round-trip and ranged-read claims -/

/-- When every element maps to `some`, a `filterMap` keeps the full
length. -/
theorem filterMap_length_of_all_some {α β : Type} (f : α → Option β) (l : List α)
    (h : ∀ a ∈ l, ∃ b, f a = some b) : (l.filterMap f).length = l.length := by
  induction l with
  | nil => rfl
  | cons a t ih =>
    obtain ⟨b, hb⟩ := h a (List.mem_cons_self a t)
    have hc : (a :: t).filterMap f = b :: t.filterMap f := by
      simp [List.filterMap_cons, hb]
    rw [hc]
    simp [ih (fun x hx => h x (List.mem_cons_of_mem a hx))]

/-- When no fetch is missing, `try_get_chunks` succeeds with the full
fetched collection. -/
theorem try_get_chunks_all_ok (env : Env) (keys : List ChunkKey)
    (h : ∀ key ∈ keys, ∃ c, fetch_one env key = some c) :
    try_get_chunks env keys = .ok (keys.filterMap (fetch_one env)) := by
  have hlen := filterMap_length_of_all_some (fetch_one env) keys h
  rw [try_get_chunks_eq]
  split
  · omega
  · rfl

/-- When every chunk of the key is retrievable and the decoder accepts
the fetched set, `read_all` returns the decoded bytes. -/
theorem read_all_ok (env : Env) (sk : BlobSecretKey) (data : Bytes)
    (hkeys : ∀ key ∈ sk.keys, ∃ c, fetch_one env key = some c)
    (hdec : env.decrypt_full_set sk (sk.keys.filterMap (fetch_one env)) = .ok data) :
    read_all env sk = .ok data := by
  simp only [read_all, try_get_chunks_all_ok env sk.keys hkeys, hdec]

/-- C2: writing bytes the encoder accepts (that is, at or above the
minimum encodable size) and then reading the returned address yields the
original bytes, for any scope — provided every stored chunk is
retrievable, the head chunk resolves to a first-level key, and the
self-encryption decode inverts the encode (the external collaborator's
contract, stated as hypotheses). -/
theorem c2_write_read_roundtrip (env : Env) (fuel : Nat) (data : Bytes) (scope : Scope)
    (addr : BlobAddress) (chunks : List Chunk) (hc : Chunk) (sk : BlobSecretKey)
    (henc : env.get_data_chunks data (env.encryption scope env.publicKey) = .ok (addr, chunks))
    (hhead : read_from_network env addr.name = .ok hc)
    (hunpack : unpack_head_chunk env fuel { chunk := hc, address := addr } = some (.ok sk))
    (hkeys : ∀ key ∈ sk.keys, ∃ c, fetch_one env key = some c)
    (hdec : env.decrypt_full_set sk (sk.keys.filterMap (fetch_one env)) = .ok data) :
    write_to_network env data scope = .ok addr
    ∧ read_blob env fuel addr = some (.ok data) := by
  constructor
  · rw [write_to_network_eq, henc]
  · simp only [read_blob, hhead, hunpack, read_all_ok env sk data hkeys hdec]

/-- The first-level secret key of the round-trip witness environments:
one data chunk stored at name 1. -/
def skW2 : BlobSecretKey := { keys := [{ index := 0, dst_hash := 1 }], file_size := 3 }

/-- Public round-trip witness environment: encoding `[7, 7, 7]` yields
head address 0 with head chunk `[9]` and data chunk `[5]`; the head
payload deserializes to `FirstLevel skW2` and decoding the fetched set
returns `[7, 7, 7]`. -/
def envW2 : Env :=
  { baseEnv with
      get_data_chunks := fun d _ =>
        if d = [7, 7, 7] then
          .ok (BlobAddress.Public 0, [{ value := [9] }, { value := [5] }])
        else .error (Error.Generic "too small")
      send_query := storeOf (fun n =>
        if n = 0 then some { value := [9] }
        else if n = 1 then some { value := [5] } else none)
      deserialize_sk := fun b =>
        if b = [9] then .ok (SecretKey.FirstLevel skW2) else .error (Error.Serialisation 0)
      decrypt_full_set := fun sk cs =>
        if sk = skW2 ∧ cs = [{ index := 0, content := [5] }] then .ok [7, 7, 7]
        else .error 1 }

/-- Owner capability of the private round-trip witness: decrypts the
private head payload `[19]` to `[9]`. -/
def capW2 : EncryptionCap :=
  { decrypt := fun b => if b = [19] then .ok [9] else .error (Error.Generic "decrypt") }

/-- Private round-trip witness environment: same data chunk as `envW2`,
with an owner-encrypted head chunk `[19]` stored under a private
address. -/
def envW2p : Env :=
  { envW2 with
      encryption := fun s _ => if s = Scope.Private then some capW2 else none
      get_data_chunks := fun d _ =>
        if d = [7, 7, 7] then
          .ok (BlobAddress.Private 0, [{ value := [19] }, { value := [5] }])
        else .error (Error.Generic "too small")
      send_query := storeOf (fun n =>
        if n = 0 then some { value := [19] }
        else if n = 1 then some { value := [5] } else none) }

/-- Every key of `skW2` is fetchable in `envW2`. -/
theorem skW2_fetchable : ∀ key ∈ skW2.keys, ∃ c, fetch_one envW2 key = some c := by
  intro key hk
  have h : key = { index := 0, dst_hash := 1 } := List.mem_singleton.mp hk
  subst h
  exact ⟨{ index := 0, content := [5] }, rfl⟩

/-- Every key of `skW2` is fetchable in `envW2p`. -/
theorem skW2_fetchable_p : ∀ key ∈ skW2.keys, ∃ c, fetch_one envW2p key = some c := by
  intro key hk
  have h : key = { index := 0, dst_hash := 1 } := List.mem_singleton.mp hk
  subst h
  exact ⟨{ index := 0, content := [5] }, rfl⟩

/-- Witness for C2: the concrete round trip of `[7, 7, 7]` through
`envW2` under Public scope and through `envW2p` under Private scope. -/
theorem c2_write_read_roundtrip_witness :
    (write_to_network envW2 [7, 7, 7] Scope.Public = .ok (BlobAddress.Public 0)
      ∧ read_blob envW2 1 (BlobAddress.Public 0) = some (.ok [7, 7, 7]))
    ∧ (write_to_network envW2p [7, 7, 7] Scope.Private = .ok (BlobAddress.Private 0)
      ∧ read_blob envW2p 1 (BlobAddress.Private 0) = some (.ok [7, 7, 7])) :=
  ⟨c2_write_read_roundtrip envW2 1 [7, 7, 7] Scope.Public (BlobAddress.Public 0)
      [{ value := [9] }, { value := [5] }] { value := [9] } skW2
      rfl rfl rfl skW2_fetchable rfl,
   c2_write_read_roundtrip envW2p 1 [7, 7, 7] Scope.Private (BlobAddress.Private 0)
      [{ value := [19] }, { value := [5] }] { value := [19] } skW2
      rfl rfl rfl skW2_fetchable_p rfl⟩

/-- C3: a ranged read returns exactly the bytes `p` through `p + l - 1`
of the full read: `read_blob_from env addr p l` equals the slice
`(read_blob env addr)[p : p + l]` — under the same resolution hypotheses
as C2 plus the collaborator contract for `seek_info` and `decrypt_range`
on a window within the object's bounds. -/
theorem c3_ranged_read_correct (env : Env) (fuel : Nat) (addr : BlobAddress) (hc : Chunk)
    (sk : BlobSecretKey) (data : Bytes) (pos len s e rp : Nat) (subkeys : List ChunkKey)
    (hhead : read_from_network env addr.name = .ok hc)
    (hunpack : unpack_head_chunk env fuel { chunk := hc, address := addr } = some (.ok sk))
    (hkeys : ∀ key ∈ sk.keys, ∃ c, fetch_one env key = some c)
    (hdecfull : env.decrypt_full_set sk (sk.keys.filterMap (fetch_one env)) = .ok data)
    (hinfo : env.seek_info sk.file_size pos len =
      { index_range := { start := s, stop := e }, relative_pos := rp })
    (hsub : seek_keys sk.keys (List.range' s (e + 1 - s)) = some subkeys)
    (hsubkeys : ∀ key ∈ subkeys, ∃ c, fetch_one env key = some c)
    (hdecrange : env.decrypt_range sk (subkeys.filterMap (fetch_one env)) rp len =
      .ok ((data.drop pos).take len)) :
    read_blob_from env fuel addr pos len = some (.ok ((data.drop pos).take len))
    ∧ read_blob env fuel addr = some (.ok data) := by
  constructor
  · simp only [read_blob_from, hhead, hunpack, seek_eq, hinfo, hsub,
      try_get_chunks_all_ok env subkeys hsubkeys, hdecrange]
  · simp only [read_blob, hhead, hunpack, read_all_ok env sk data hkeys hdecfull]

/-- Ranged-read witness environment: full decode of the single-chunk
object yields `[7, 8, 9]`; the seek info for window `(1, 1)` covers chunk
index 0 with relative offset 1, and range decoding that window yields
`[8]`. -/
def envW3 : Env :=
  { envW2 with
      decrypt_full_set := fun sk cs =>
        if sk = skW2 ∧ cs = [{ index := 0, content := [5] }] then .ok [7, 8, 9]
        else .error 1
      seek_info := fun _ _ _ => { index_range := { start := 0, stop := 0 }, relative_pos := 1 }
      decrypt_range := fun sk cs rp l =>
        if sk = skW2 ∧ cs = [{ index := 0, content := [5] }] ∧ rp = 1 ∧ l = 1 then .ok [8]
        else .error 2 }

/-- Every key of `skW2` is fetchable in `envW3`. -/
theorem skW2_fetchable_3 : ∀ key ∈ skW2.keys, ∃ c, fetch_one envW3 key = some c := by
  intro key hk
  have h : key = { index := 0, dst_hash := 1 } := List.mem_singleton.mp hk
  subst h
  exact ⟨{ index := 0, content := [5] }, rfl⟩

/-- Witness for C3: reading the window at position 1 of length 1 from
the `[7, 8, 9]` object of `envW3` yields `[8]`, the slice of the full
read. -/
theorem c3_ranged_read_correct_witness :
    read_blob_from envW3 1 (BlobAddress.Public 0) 1 1 = some (.ok [8])
    ∧ read_blob envW3 1 (BlobAddress.Public 0) = some (.ok [7, 8, 9]) :=
  c3_ranged_read_correct envW3 1 (BlobAddress.Public 0) { value := [9] } skW2
    [7, 8, 9] 1 1 0 0 1 [{ index := 0, dst_hash := 1 }]
    rfl rfl skW2_fetchable_3 rfl rfl rfl skW2_fetchable_3 rfl

end SafeNetwork
